import Mathlib

/-!
Shallow embedding of the stasis guest-side library (Rust sources under
src/rust/stasis and src/rust/stasis-internals) together with theorems
checking the natural-language specification against the code.

Modelling conventions:
  - u32 values are Nat taken modulo U32MOD where the Rust code can wrap;
  - HashMap is a function Nat -> Option v;
  - a Rust panic is an Except.error carrying the panic message;
  - lock discipline is made observable through an event trace (Ev):
    acquiring a mutex, releasing it, and invoking a user closure.
-/

namespace Stasis

def U32MOD : Nat := 2 ^ 32

/-- Observable events of an operation: taking the global lock, dropping it,
and invoking a user-supplied closure. -/
inductive Ev where
  | acquire : Ev
  | release : Ev
  | invoke : Ev
deriving DecidableEq

/-- Number of locks held after the trace: acquires minus releases
(truncated Nat subtraction; traces produced here never release more than
they acquire). -/
def locksHeld (tr : List Ev) : Nat := tr.count Ev.acquire - tr.count Ev.release

/-- The lock is not held at the moment any user closure in the trace is
invoked. -/
def lockFreeAtUser (tr : List Ev) : Prop :=
  ∀ i : Fin tr.length, tr.get i = Ev.invoke → locksHeld (tr.take i.1) = 0

instance (tr : List Ev) : Decidable (lockFreeAtUser tr) := by
  unfold lockFreeAtUser
  infer_instance

/-! ### Internal callback registry
Embeds src/rust/stasis-internals/src/internal_callbacks.rs.
A registered callback is a type-erased closure String -> String
(the JSON-decode/encode wrapping happens at registration in the source
and is opaque here). -/

/-- State of the internal registry: struct Callbacks in
internal_callbacks.rs (field current: u32, field registered:
HashMap of u32 to Arc of a boxed closure). -/
structure RegCallbacks where
  current : Nat
  registered : Nat → Option (String → String)

/-- Default::default() for the registry: counter 0, empty map. -/
def RegCallbacks.init : RegCallbacks :=
  { current := 0, registered := fun _ => none }

/-- Callbacks::register: take the current counter as the id, bump the
counter (u32 wrap), insert the closure under the id, return the id. -/
def RegCallbacks.register (st : RegCallbacks) (f : String → String) :
    Nat × RegCallbacks :=
  let id := st.current
  (id,
    { current := (st.current + 1) % U32MOD,
      registered := fun k => if k = id then some f else st.registered k })

/-- Run a sequence of register calls, collecting the issued ids. -/
def RegCallbacks.registerSeq (st : RegCallbacks) :
    List (String → String) → List Nat × RegCallbacks
  | [] => ([], st)
  | f :: fs =>
    let p := st.register f
    let q := p.2.registerSeq fs
    (p.1 :: q.1, q.2)

/-- Panic message of internal_callbacks::call on a missing id.  The Rust
string literal uses a backslash line continuation with no space before
it, so the two fragments concatenate without a space. -/
def registryPanicMsg : String :=
  "FATAL: Failed to find callback. Make sure to register allcallbacks."

/-- internal_callbacks::call: lock the registry, look up the closure
(clone of the Arc) or panic, drop the guard, invoke the closure, and
normalize the literal output null to an absent value.  The second
component is the lock/user event trace. -/
def RegCallbacks.call (st : RegCallbacks) (id : Nat) (args : String) :
    Except String (Option String) × List Ev :=
  match st.registered id with
  | none => (Except.error registryPanicMsg, [Ev.acquire])
  | some f =>
    let out := f args
    (Except.ok (if out = "null" then none else some out),
      [Ev.acquire, Ev.release, Ev.invoke])

/-! ### User-facing callback queue
Embeds src/rust/stasis/src/callbacks.rs.  The value type T is a
parameter as in the Rust generic; a listener closure (Box FnMut) is
modelled by an opaque token of type N recording which closure is armed
or fired. -/

/-- One entry of the queue map: struct Callback in callbacks.rs (field
notify: optional one-shot listener, field stack: VecDeque used FIFO,
push_back on push and pop_front on pop). -/
structure Entry (T N : Type) where
  notify : Option N
  stack : List T
deriving DecidableEq

/-- Default::default() for an entry: no listener, empty FIFO. -/
def Entry.init {T N : Type} : Entry T N := { notify := none, stack := [] }

/-- State of a Callbacks manager: struct Inner in callbacks.rs (field
current: u32 id counter, field map: HashMap from CallbackId to Callback).
Keys are the u32 inside CallbackId. -/
structure Inner (T N : Type) where
  current : Nat
  map : Nat → Option (Entry T N)

/-- Default::default() for Inner: counter 0, empty map. -/
def Inner.init {T N : Type} : Inner T N :=
  { current := 0, map := fun _ => none }

/-- Inner::pop: self.map.get_mut(id)?.stack.pop_front().  An absent id or
an empty FIFO yields none; otherwise the FIFO head is removed and
returned. -/
def Inner.pop {T N : Type} (inner : Inner T N) (id : Nat) :
    Option T × Inner T N :=
  match inner.map id with
  | none => (none, inner)
  | some cb =>
    match cb.stack with
    | [] => (none, inner)
    | t :: rest =>
      (some t,
        { inner with
            map := fun k =>
              if k = id then some { cb with stack := rest } else inner.map k })

/-- Inner::listen: entry(id).or_insert_with(default), then overwrite the
notify slot with the new one-shot closure (the FnOnce is wrapped into an
FnMut in the source; the token f stands for that wrapped closure). -/
def Inner.listen {T N : Type} (inner : Inner T N) (id : Nat) (f : N) :
    Inner T N :=
  let cb := (inner.map id).getD Entry.init
  { inner with
      map := fun k =>
        if k = id then some { cb with notify := some f } else inner.map k }

/-- Result of Callbacks::push: the state after the locked section, the
listener that was fired (if any), and the lock/user event trace. -/
structure PushOut (T N : Type) where
  state : Inner T N
  fired : Option N
  events : List Ev

/-- Callbacks::push: under the lock (self.with), get_mut(id) with the
question-mark operator — an absent entry short-circuits and the value is
dropped — else push_back the value and take() the armed notifier; after
the lock is released, invoke the taken notifier if there is one. -/
def Inner.push {T N : Type} (inner : Inner T N) (id : Nat) (t : T) :
    PushOut T N :=
  match inner.map id with
  | none =>
    { state := inner, fired := none, events := [Ev.acquire, Ev.release] }
  | some cb =>
    let st :=
      { inner with
          map := fun k =>
            if k = id then some { notify := none, stack := cb.stack ++ [t] }
            else inner.map k }
    match cb.notify with
    | some f =>
      { state := st, fired := some f,
        events := [Ev.acquire, Ev.release, Ev.invoke] }
    | none =>
      { state := st, fired := none, events := [Ev.acquire, Ev.release] }

/-- Callbacks::create: increment the id counter (u32 wrap) and return its
new value as the fresh CallbackId. -/
def Inner.create {T N : Type} (inner : Inner T N) : Nat × Inner T N :=
  let cur := (inner.current + 1) % U32MOD
  (cur, { inner with current := cur })

/-- Run n successive create calls, collecting the returned ids. -/
def Inner.createSeq {T N : Type} : Inner T N → Nat → List Nat × Inner T N
  | inner, 0 => ([], inner)
  | inner, n + 1 =>
    let p := inner.create
    let q := p.2.createSeq n
    (p.1 :: q.1, q.2)

/-- Run a sequence of push calls for one id, collecting which listener
each push fired. -/
def Inner.pushSeq {T N : Type} (inner : Inner T N) (id : Nat) :
    List T → List (Option N) × Inner T N
  | [] => ([], inner)
  | v :: vs =>
    let r := inner.push id v
    let q := r.state.pushSeq id vs
    (r.fired :: q.1, q.2)

/-- An operation of the queue interface restricted to a single id. -/
inductive QOp (T : Type) where
  | enq : T → QOp T
  | deq : QOp T
deriving DecidableEq

/-- Run a sequence of push/pop operations on one id of the code's state,
collecting the result of each pop. -/
def Inner.runOps {T N : Type} (inner : Inner T N) (id : Nat) :
    List (QOp T) → List (Option T) × Inner T N
  | [] => ([], inner)
  | QOp.enq v :: ops =>
    let r := inner.push id v
    r.state.runOps id ops
  | QOp.deq :: ops =>
    let p := inner.pop id
    let q := p.2.runOps id ops
    (p.1 :: q.1, q.2)

/-- Modelled from the spec: the abstract per-id FIFO that section 5 of
the spec promises (push appends at the tail, pop removes the head or
yields none).  Used only as the reference model of the refinement
theorem for the queue. -/
def fifoRun {T : Type} (q : List T) : List (QOp T) → List (Option T) × List T
  | [] => ([], q)
  | QOp.enq v :: ops => fifoRun (q ++ [v]) ops
  | QOp.deq :: ops =>
    match q with
    | [] =>
      let r := fifoRun ([] : List T) ops
      ((none : Option T) :: r.1, r.2)
    | t :: rest =>
      let r := fifoRun rest ops
      (some t :: r.1, r.2)

/-! ### Task executor (futures 0.2 flavour)
Embeds src/rust/stasis/src/futures/v02.rs.  A boxed future is modelled
by the sequence of outcomes its successive poll steps produce: ready, or
pending together with its next state.  The error type of the futures is
Never, modelled by Empty. -/

/-- Async of the futures 0.2 protocol, at unit item type. -/
inductive Async where
  | pending : Async
  | ready : Async
deriving DecidableEq

/-- A task: what its next poll step reports, and (when pending) the
mutated future that must be reinserted. -/
inductive TaskM where
  | done : TaskM
  | yields : TaskM → TaskM
deriving DecidableEq

/-- One progress step of a task: Future::poll.  The result type mirrors
Result of Async and Never. -/
def TaskM.pollStep : TaskM → Except Empty Async × TaskM
  | TaskM.done => (Except.ok Async.ready, TaskM.done)
  | TaskM.yields t => (Except.ok Async.pending, t)

/-- State of the executor pool: struct Pool in v02.rs (field current: u32
id counter, field futures: HashMap from u32 to boxed future). -/
structure Pool where
  current : Nat
  futures : Nat → Option TaskM

/-- HashMap::remove under the pool lock: take the task out (the map no
longer holds the id) or leave the pool unchanged when absent. -/
def Pool.removeTask (p : Pool) (id : Nat) : Option TaskM × Pool :=
  match p.futures id with
  | none => (none, p)
  | some f =>
    (some f,
      { p with futures := fun k => if k = id then none else p.futures k })

/-- HashMap::insert under the pool lock. -/
def Pool.insertTask (p : Pool) (id : Nat) (f : TaskM) : Pool :=
  { p with futures := fun k => if k = id then some f else p.futures k }

/-- StasisExecutor::poll: remove the task from the pool (the lock guard
is temporary, dropped before polling); if absent, return with no effect;
drive one progress step; reinsert under the same id when pending,
discard when ready; the error arm is uninhabited (Never). -/
def execPoll (p : Pool) (id : Nat) : Pool :=
  match (p.removeTask id : Option TaskM × Pool) with
  | (none, p1) => p1
  | (some f, p1) =>
    match f.pollStep with
    | (Except.ok Async.pending, f1) => p1.insertTask id f1
    | (Except.ok Async.ready, _) => p1
    | (Except.error e, _) => e.elim

/-- StasisExecutor::spawn: under the pool lock allocate the next id
(u32 wrap on the counter), insert the task, drop the lock, then
immediately poll the new id. -/
def execSpawn (p : Pool) (f : TaskM) : Pool :=
  let id := p.current
  let p1 : Pool :=
    { current := (p.current + 1) % U32MOD,
      futures := fun k => if k = id then some f else p.futures k }
  execPoll p1 id

/-! ### Byte codec and fat pointer
Embeds src/rust/stasis-internals/src/data.rs.  Bytes are Nat below 256;
a slice is a List Nat.  The length-4 assertions of the Rust functions
are modelled by returning none (panic) on any other length. -/

/-- data::read_u32: little-endian read of a u32 from an exactly-4-byte
slice; any other length is an assertion failure.  The additions happen
in u32, hence the final reduction modulo 2^32 (it is the identity for
genuine byte inputs). -/
def read_u32 : List Nat → Option Nat
  | [b0, b1, b2, b3] =>
    some ((b0 + (b1 <<< 8) + (b2 <<< 16) + (b3 <<< 24)) % U32MOD)
  | _ => none

/-- data::write_u32: little-endian write of a u32 into an exactly-4-byte
slice; any other length is an assertion failure.  Each stored byte is
the masked-and-shifted word cast to u8 (reduction modulo 256). -/
def write_u32 (ptr : List Nat) (n : Nat) : Option (List Nat) :=
  if ptr.length = 4 then
    some
      [(n &&& 0xFF) % 256,
       ((n &&& 0xFF00) >>> 8) % 256,
       ((n &&& 0xFF0000) >>> 16) % 256,
       ((n &&& 0xFF000000) >>> 24) % 256]
  else none

/-- data::Pair: a WebAssembly-friendly fat pointer (address, length). -/
structure Pair where
  ptr : Nat
  len : Nat
deriving DecidableEq

/-- Into a raw header pointer for Pair: allocate an 8-byte buffer of
zeros, write_u32 the ptr into bytes 0..4 and the len into bytes 4..8
(both cast to u32), and forget the buffer.  The model returns the 8
header bytes; none stands for the unreachable write_u32 assertion. -/
def Pair.intoHeader (p : Pair) : Option (List Nat) :=
  match write_u32 (List.replicate 4 0) (p.ptr % U32MOD),
        write_u32 (List.replicate 4 0) (p.len % U32MOD) with
  | some lo, some hi => some (lo ++ hi)
  | _, _ => none

/-- Pair::from_u8_mut_ptr: reinterpret 8 bytes at the given address as a
header, read_u32 bytes 0..4 as the ptr and bytes 4..8 as the len, and
drop the header buffer.  The model takes the 8 bytes themselves; none
stands for the read_u32 assertion on a wrong-sized slice. -/
def Pair.fromHeader (bytes : List Nat) : Option Pair :=
  if bytes.length = 8 then
    match read_u32 (bytes.take 4), read_u32 (bytes.drop 4) with
    | some a, some b => some { ptr := a, len := b }
    | _, _ => none
  else none

/-! ### Payload buffer release (From String for Pair)
A Rust Vec of u8 is modelled by its byte list, its capacity, and the
address of its allocation.  The address is opaque. -/

/-- A heap byte buffer: Vec of u8 (its String backing store included). -/
structure RVec where
  addr : Nat
  data : List Nat
  cap : Nat

/-- Vec::shrink_to_fit: the capacity becomes the length. -/
def RVec.shrinkToFit (v : RVec) : RVec :=
  { v with cap := v.data.length }

/-- The buffer as released by mem::forget: its address, the length
reported in the Pair, and the capacity it still owns at that moment. -/
structure Released where
  addr : Nat
  len : Nat
  cap : Nat
deriving DecidableEq

/-- From String for Pair: turn the string into its byte Vec,
shrink_to_fit, take as_mut_ptr and len, forget the buffer, and build the
Pair from them.  Returns the Pair together with the released buffer.
This conversion is the one Pair::serialize applies to every outbound
REGISTER_FN, REGISTER_CB and CALL_FN payload in outgoing.rs. -/
def pairFromString (s : RVec) : Pair × Released :=
  let bytes := s.shrinkToFit
  let ptr := bytes.addr
  let len := bytes.data.length
  ({ ptr := ptr, len := len },
   { addr := bytes.addr, len := len, cap := bytes.cap })

/-! ### Helper lemmas -/

theorem and_shiftRight_distrib (a b k : Nat) :
    (a &&& b) >>> k = (a >>> k) &&& (b >>> k) := by
  apply Nat.eq_of_testBit_eq
  intro i
  simp [Nat.testBit_shiftRight, Nat.testBit_and]

theorem and_ff (n : Nat) : n &&& 0xFF = n % 256 := by
  have h := Nat.and_pow_two_sub_one_eq_mod n 8
  norm_num at h
  exact h

theorem mask_byte1 (n : Nat) : (n &&& 0xFF00) >>> 8 = n / 2 ^ 8 % 256 := by
  rw [and_shiftRight_distrib]
  have h1 : (0xFF00 : Nat) >>> 8 = 0xFF := by decide
  rw [h1, and_ff, Nat.shiftRight_eq_div_pow]

theorem mask_byte2 (n : Nat) : (n &&& 0xFF0000) >>> 16 = n / 2 ^ 16 % 256 := by
  rw [and_shiftRight_distrib]
  have h1 : (0xFF0000 : Nat) >>> 16 = 0xFF := by decide
  rw [h1, and_ff, Nat.shiftRight_eq_div_pow]

theorem mask_byte3 (n : Nat) : (n &&& 0xFF000000) >>> 24 = n / 2 ^ 24 % 256 := by
  rw [and_shiftRight_distrib]
  have h1 : (0xFF000000 : Nat) >>> 24 = 0xFF := by decide
  rw [h1, and_ff, Nat.shiftRight_eq_div_pow]

/-- The four bytes stored by write_u32 are the little-endian digits of
the word: byte 0 is the least significant. -/
theorem write_u32_bytes (buf : List Nat) (n : Nat) (hb : buf.length = 4) :
    write_u32 buf n =
      some [n % 2 ^ 8, n / 2 ^ 8 % 2 ^ 8, n / 2 ^ 16 % 2 ^ 8,
        n / 2 ^ 24 % 2 ^ 8] := by
  rw [write_u32, if_pos hb]
  rw [and_ff, mask_byte1, mask_byte2, mask_byte3]
  norm_num [Nat.mod_mod_of_dvd]

theorem read_after_write (buf : List Nat) (n : Nat) (hb : buf.length = 4)
    (hn : n < U32MOD) : (write_u32 buf n).bind read_u32 = some n := by
  rw [write_u32_bytes buf n hb]
  simp [read_u32, Nat.shiftLeft_eq]
  unfold U32MOD at hn ⊢
  omega

theorem header_roundtrip : ∀ (p : Pair), p.ptr < U32MOD → p.len < U32MOD →
    (Pair.intoHeader p).bind Pair.fromHeader = some p := by
  rintro ⟨a, b⟩ ha hb
  replace ha : a < U32MOD := ha
  replace hb : b < U32MOD := hb
  have ha2 : a % U32MOD = a := Nat.mod_eq_of_lt ha
  have hb2 : b % U32MOD = b := Nat.mod_eq_of_lt hb
  have e1 := write_u32_bytes (List.replicate 4 0) a (by simp)
  have e2 := write_u32_bytes (List.replicate 4 0) b (by simp)
  simp only [Pair.intoHeader, ha2, hb2, e1, e2]
  simp [Pair.fromHeader, read_u32, Nat.shiftLeft_eq, Pair.mk.injEq]
  unfold U32MOD at ha hb ⊢
  constructor <;> omega

/-! ### Claim theorems -/

/-- C1: every operation that invokes a user closure releases the global
lock first.  internal_callbacks::call clones the Arc under the lock and
drops the guard before calling the closure, and Callbacks::push takes
the armed listener out under the lock and invokes it only afterwards: in
both event traces no lock is held at any user-invocation event. -/
theorem lock_released_before_user_closure
    (st : RegCallbacks) (id : Nat) (args : String)
    {T N : Type} (inner : Inner T N) (qid : Nat) (t : T) :
    lockFreeAtUser (st.call id args).2 ∧
    lockFreeAtUser (inner.push qid t).events := by
  constructor
  · rcases h : st.registered id with _ | f <;>
      simp only [RegCallbacks.call, h] <;> decide
  · rcases h : inner.map qid with _ | cb
    · simp only [Inner.push, h]
      decide
    · rcases hn : cb.notify with _ | f <;>
        simp only [Inner.push, h, hn] <;> decide

/-- C5: internal_callbacks::call returns an absent value exactly when the
registered closure's JSON output is the literal string null, returns the
output otherwise, and panics on an id that was never registered. -/
theorem call_null_normalization (st : RegCallbacks) (id : Nat)
    (args : String) :
    (st.registered id = none →
      (st.call id args).1 = Except.error registryPanicMsg) ∧
    (∀ f, st.registered id = some f →
      (((st.call id args).1 = Except.ok none) ↔ f args = "null") ∧
      (f args ≠ "null" →
        (st.call id args).1 = Except.ok (some (f args)))) := by
  constructor
  · intro h
    simp [RegCallbacks.call, h]
  · intro f hf
    by_cases hnull : f args = "null" <;>
      simp [RegCallbacks.call, hf, hnull]

/-- C5 witness: a closure returning null yields an absent value, the
identity closure's output comes back verbatim, and a fresh registry
panics on id 0. -/
theorem call_null_normalization_witness :
    (((RegCallbacks.init.register (fun _ => "null")).2.call 0 "x").1 =
      Except.ok none) ∧
    (((RegCallbacks.init.register (fun s => s)).2.call 0 "abc").1 =
      Except.ok (some "abc")) ∧
    ((RegCallbacks.init.call 0 "x").1 =
      Except.error registryPanicMsg) := by
  refine ⟨?_, ?_, ?_⟩
  · exact
      ((call_null_normalization (RegCallbacks.init.register
        (fun _ => "null")).2 0 "x").2 (fun _ => "null") rfl).1.mpr rfl
  · exact
      ((call_null_normalization (RegCallbacks.init.register
        (fun s => s)).2 0 "abc").2 (fun s => s) rfl).2 (by decide)
  · exact (call_null_normalization RegCallbacks.init 0 "x").1 rfl

/-- C7: the String-to-Pair conversion (used for every REGISTER_FN,
REGISTER_CB and CALL_FN payload) shrinks before forgetting, so the
released buffer has capacity equal to its length, the released length is
the Pair's length, and both equal the byte length of the string. -/
theorem pair_from_string_cap_eq_len (s : RVec) :
    ((pairFromString s).2.cap = (pairFromString s).2.len) ∧
    ((pairFromString s).2.len = (pairFromString s).1.len) ∧
    ((pairFromString s).1.len = s.data.length) := by
  simp [pairFromString, RVec.shrinkToFit]

/-- C9: the byte codec round-trips: write_u32 stores the little-endian
digits of the word (byte 0 least significant), read_u32 after write_u32
recovers the word, and packing a fat pointer into an 8-byte header
(bytes 0..4 the ptr, bytes 4..8 the len) then reading the header back
recovers the same pair. -/
theorem codec_roundtrip (n : Nat) (buf : List Nat) (p : Pair)
    (hn : n < U32MOD) (hb : buf.length = 4)
    (hp : p.ptr < U32MOD) (hl : p.len < U32MOD) :
    write_u32 buf n =
      some [n % 2 ^ 8, n / 2 ^ 8 % 2 ^ 8, n / 2 ^ 16 % 2 ^ 8,
        n / 2 ^ 24 % 2 ^ 8] ∧
    (write_u32 buf n).bind read_u32 = some n ∧
    (Pair.intoHeader p).bind Pair.fromHeader = some p :=
  ⟨write_u32_bytes buf n hb, read_after_write buf n hb hn,
    header_roundtrip p hp hl⟩

/-- C9 witness: the round trips evaluated at word 305419896 (0x12345678)
and at the fat pointer (5, 7). -/
theorem codec_roundtrip_witness :
    write_u32 [0, 0, 0, 0] 305419896 =
      some [305419896 % 2 ^ 8, 305419896 / 2 ^ 8 % 2 ^ 8,
        305419896 / 2 ^ 16 % 2 ^ 8, 305419896 / 2 ^ 24 % 2 ^ 8] ∧
    (write_u32 [0, 0, 0, 0] 305419896).bind read_u32 = some 305419896 ∧
    (Pair.intoHeader { ptr := 5, len := 7 }).bind Pair.fromHeader =
      some { ptr := 5, len := 7 } :=
  codec_roundtrip 305419896 [0, 0, 0, 0] { ptr := 5, len := 7 }
    (by norm_num [U32MOD]) (by simp) (by norm_num [U32MOD])
    (by norm_num [U32MOD])

/-- Ids returned by n successive create calls, starting from a counter
value that does not wrap: the counter values one past the start. -/
theorem createSeq_ids {T N : Type} :
    ∀ (n : Nat) (inner : Inner T N), inner.current + n < U32MOD →
      (inner.createSeq n).1 = List.range' (inner.current + 1) n := by
  intro n
  induction n with
  | zero =>
    intro inner h
    simp [Inner.createSeq]
  | succ k ih =>
    intro inner h
    have hlt : inner.current + 1 < U32MOD := by omega
    have hc : ((inner.current + 1) % U32MOD) = inner.current + 1 :=
      Nat.mod_eq_of_lt hlt
    simp only [Inner.createSeq, Inner.create, hc]
    have hrec := ih { inner with current := inner.current + 1 } (by simp; omega)
    simp only at hrec
    rw [hrec, List.range'_succ]

/-- C10: the user-facing queue's create bumps the counter before
returning it, so n successive create calls on a fresh manager return
exactly the ids 1, 2, ..., n: never 0, strictly increasing, and never
reused (while the u32 counter does not wrap). -/
theorem create_ids_start_at_one {T N : Type} (n : Nat) (h : n < U32MOD) :
    ((Inner.init : Inner T N).createSeq n).1 = List.range' 1 n ∧
    0 ∉ ((Inner.init : Inner T N).createSeq n).1 ∧
    ((Inner.init : Inner T N).createSeq n).1.Nodup ∧
    ((Inner.init : Inner T N).createSeq n).1.Pairwise (· < ·) := by
  have hids := createSeq_ids (T := T) (N := N) n Inner.init (by simp [Inner.init]; omega)
  have h1 : (Inner.init : Inner T N).current + 1 = 1 := rfl
  rw [h1] at hids
  refine ⟨hids, ?_, ?_, ?_⟩
  · rw [hids]
    simp [List.mem_range']
    omega
  · rw [hids]
    exact List.nodup_range' 1 n
  · rw [hids]
    exact List.pairwise_lt_range' 1 n

/-- C10 witness: three creates on a fresh manager return ids 1, 2, 3 (in
particular never 0 and with no repetition). -/
theorem create_ids_start_at_one_witness :
    ((Inner.init : Inner Unit Unit).createSeq 3).1 = List.range' 1 3 ∧
    0 ∉ ((Inner.init : Inner Unit Unit).createSeq 3).1 := by
  have h := create_ids_start_at_one (T := Unit) (N := Unit) 3
    (by norm_num [U32MOD])
  exact ⟨h.1, h.2.1⟩

/-- C2 counterexample: pushing value 42 to id 5 of a fresh queue manager
(no listen was ever issued for the id) leaves the state unchanged, fires
nothing, and a later pop returns none — the value is lost, contradicting
the claim that it is stored in the FIFO. -/
theorem push_before_listen_loses_value :
    ((((Inner.init : Inner Nat Nat).push 5 42).state.pop 5).1 = none) ∧
    (((Inner.init : Inner Nat Nat).push 5 42).state.map 5 = none) ∧
    (((Inner.init : Inner Nat Nat).push 5 42).fired = none) :=
  ⟨rfl, rfl, rfl⟩

/-- C2 amended: push(id, value) before any listen(id, _) silently
discards the value — the state is unchanged and a later pop(id) returns
none; only once a listen(id, _) has created the id's entry does a push
store the value in the FIFO so that a later pop returns it. -/
theorem push_before_listen_discards {T N : Type} (inner : Inner T N)
    (id : Nat) (v : T) (f : N) :
    (inner.map id = none →
      (inner.push id v).state = inner ∧
      ((inner.push id v).state.pop id).1 = none) ∧
    (inner.map id = none →
      (((inner.listen id f).push id v).state.pop id).1 = some v) := by
  constructor
  · intro h
    constructor
    · simp [Inner.push, h]
    · simp [Inner.push, Inner.pop, h]
  · intro h
    simp [Inner.listen, Inner.push, Inner.pop, h, Entry.init]

/-- C2 amended witness: on a fresh manager, push to id 5 then pop yields
none, while listen-then-push on id 5 makes pop yield the value. -/
theorem push_before_listen_discards_witness :
    ((((Inner.init : Inner Nat Nat).push 5 42).state.pop 5).1 = none) ∧
    (((((Inner.init : Inner Nat Nat).listen 5 9).push 5 42).state.pop
      5).1 = some 42) :=
  ⟨((push_before_listen_discards (Inner.init : Inner Nat Nat) 5 42 9).1
      rfl).2,
    (push_before_listen_discards (Inner.init : Inner Nat Nat) 5 42 9).2
      rfl⟩

/-- The state reached by a push on an existing entry: the value appended
at the back of the FIFO, the notifier slot emptied. -/
theorem push_state_of_entry {T N : Type} (inner : Inner T N) (id : Nat)
    (v : T) (cb : Entry T N) (h : inner.map id = some cb) :
    (inner.push id v).state =
      { inner with
          map := fun k =>
            if k = id then some { notify := none, stack := cb.stack ++ [v] }
            else inner.map k } := by
  rcases hn : cb.notify with _ | f <;> simp [Inner.push, h, hn]

/-- Refinement of the per-id queue by the spec FIFO: if the id has an
entry, a run of push/pop operations returns exactly what the abstract
FIFO returns, and the entry's final stack is the abstract queue. -/
theorem runOps_refines_fifo {T N : Type} :
    ∀ (ops : List (QOp T)) (inner : Inner T N) (id : Nat) (cb : Entry T N),
      inner.map id = some cb →
      (inner.runOps id ops).1 = (fifoRun cb.stack ops).1 ∧
      ∃ cb2, (inner.runOps id ops).2.map id = some cb2 ∧
        cb2.stack = (fifoRun cb.stack ops).2 := by
  intro ops
  induction ops with
  | nil =>
    intro inner id cb h
    exact ⟨rfl, cb, h, rfl⟩
  | cons op ops ih =>
    intro inner id cb h
    cases op with
    | enq v =>
      have hst := push_state_of_entry inner id v cb h
      have hmem : (inner.push id v).state.map id =
          some { notify := none, stack := cb.stack ++ [v] } := by
        rw [hst]
        simp
      have hrec := ih (inner.push id v).state id _ hmem
      simp only [Inner.runOps, fifoRun]
      exact hrec
    | deq =>
      rcases hstack : cb.stack with _ | ⟨t, rest⟩
      · have hpop : inner.pop id = (none, inner) := by
          simp [Inner.pop, h, hstack]
        have hrec := ih inner id cb h
        simp only [Inner.runOps, hpop, fifoRun, hstack]
        rw [hstack] at hrec
        exact ⟨by rw [hrec.1], hrec.2⟩
      · have hpop : inner.pop id =
            (some t,
              { inner with
                  map := fun k =>
                    if k = id then some { cb with stack := rest }
                    else inner.map k }) := by
          simp [Inner.pop, h, hstack]
        have hmem :
            (Inner.mk inner.current
              (fun k => if k = id then some { cb with stack := rest }
                else inner.map k)).map id =
              some { cb with stack := rest } := by
          simp
        have hrec := ih _ id _ hmem
        simp only [Inner.runOps, fifoRun, hstack, hpop]
        constructor
        · simpa using hrec.1
        · simpa using hrec.2

/-- C3: per-id FIFO order — with an entry present, any interleaving of
push and pop operations on that id returns exactly what the abstract
FIFO (seeded with the entry's stack) returns; and pop on an id that was
never given an entry returns none rather than failing. -/
theorem queue_fifo_per_id {T N : Type} (inner : Inner T N) (id : Nat)
    (ops : List (QOp T)) :
    (∀ cb, inner.map id = some cb →
      (inner.runOps id ops).1 = (fifoRun cb.stack ops).1) ∧
    (inner.map id = none → (inner.pop id).1 = none) := by
  constructor
  · intro cb h
    exact (runOps_refines_fifo ops inner id cb h).1
  · intro h
    simp [Inner.pop, h]

/-- C3 witness: after a listen creates the entry for id 1, the run
push 10, push 20, pop, pop, pop returns what the abstract FIFO returns
(some 10, some 20, none); pop on the never-touched id 7 returns none. -/
theorem queue_fifo_per_id_witness :
    ((((Inner.init : Inner Nat Nat).listen 1 0).runOps 1
        [QOp.enq 10, QOp.enq 20, QOp.deq, QOp.deq, QOp.deq]).1 =
      (fifoRun []
        [QOp.enq 10, QOp.enq 20, QOp.deq, QOp.deq, QOp.deq]).1) ∧
    (((Inner.init : Inner Nat Nat).pop 7).1 = none) :=
  ⟨(queue_fifo_per_id ((Inner.init : Inner Nat Nat).listen 1 0) 1
        [QOp.enq 10, QOp.enq 20, QOp.deq, QOp.deq, QOp.deq]).1
      { notify := some 0, stack := [] } rfl,
    (queue_fifo_per_id (Inner.init : Inner Nat Nat) 7 []).2 rfl⟩

/-- With no armed listener on the entry, a run of pushes fires nothing
and the listener slot stays empty. -/
theorem pushSeq_fires_nothing {T N : Type} (id : Nat) :
    ∀ (vs : List T) (inner : Inner T N) (cb : Entry T N),
      inner.map id = some cb → cb.notify = none →
      (inner.pushSeq id vs).1 = vs.map (fun _ => (none : Option N)) := by
  intro vs
  induction vs with
  | nil =>
    intro inner cb h hn
    rfl
  | cons v vs ih =>
    intro inner cb h hn
    have hfired : (inner.push id v).fired = none := by
      simp [Inner.push, h, hn]
    have hmem : (inner.push id v).state.map id =
        some { notify := none, stack := cb.stack ++ [v] } := by
      rw [push_state_of_entry inner id v cb h]
      simp
    simp only [Inner.pushSeq, hfired, List.map]
    rw [ih (inner.push id v).state _ hmem rfl]

/-- C4: after listen(id, f), the first push on id fires exactly f and
empties the listener slot, and every further push without a new listen
fires nothing: over any run of pushes the fired listeners are f once and
then nothing. -/
theorem listener_fires_exactly_once {T N : Type} (inner : Inner T N)
    (id : Nat) (f : N) (v : T) (vs : List T) :
    ((inner.listen id f).pushSeq id (v :: vs)).1 =
      some f :: vs.map (fun _ => (none : Option N)) ∧
    ∃ cb, ((inner.listen id f).push id v).state.map id = some cb ∧
      cb.notify = none := by
  have hlis : (inner.listen id f).map id =
      some { (inner.map id).getD Entry.init with notify := some f } := by
    simp [Inner.listen]
  have hfired : ((inner.listen id f).push id v).fired = some f := by
    simp [Inner.push, hlis]
  have hmem : ((inner.listen id f).push id v).state.map id =
      some (Entry.mk none (((inner.map id).getD Entry.init).stack ++ [v])) := by
    rw [push_state_of_entry (inner.listen id f) id v _ hlis]
    simp
  constructor
  · simp only [Inner.pushSeq, hfired, List.map]
    rw [pushSeq_fires_nothing id vs _ _ hmem rfl]
  · exact ⟨_, hmem, rfl⟩

/-- Ids issued by a run of register calls from a counter that does not
wrap: the consecutive counter values. -/
theorem registerSeq_ids :
    ∀ (fs : List (String → String)) (st : RegCallbacks),
      st.current + fs.length ≤ U32MOD →
      (st.registerSeq fs).1 = List.range' st.current fs.length := by
  intro fs
  induction fs with
  | nil =>
    intro st h
    simp [RegCallbacks.registerSeq]
  | cons f fs ih =>
    intro st h
    simp only [RegCallbacks.registerSeq, RegCallbacks.register,
      List.length_cons] at h ⊢
    by_cases hc : st.current + 1 < U32MOD
    · have hmod : (st.current + 1) % U32MOD = st.current + 1 :=
        Nat.mod_eq_of_lt hc
      rw [hmod]
      have hrec := ih
        (RegCallbacks.mk (st.current + 1)
          (fun k => if k = st.current then some f else st.registered k))
        (by simp; omega)
      simp only [RegCallbacks.registerSeq] at hrec
      rw [hrec, List.range'_succ]
    · have hz : fs.length = 0 := by omega
      rw [List.length_eq_zero] at hz
      subst hz
      simp [RegCallbacks.registerSeq, List.range'_succ]

/-- A run of register calls does not modify bindings whose key is not
among the issued ids. -/
theorem registerSeq_frozen :
    ∀ (fs : List (String → String)) (st : RegCallbacks) (k : Nat),
      k ∉ (st.registerSeq fs).1 →
      (st.registerSeq fs).2.registered k = st.registered k := by
  intro fs
  induction fs with
  | nil =>
    intro st k hk
    rfl
  | cons f fs ih =>
    intro st k hk
    simp only [RegCallbacks.registerSeq, List.mem_cons, not_or] at hk ⊢
    have hk1 : k ≠ st.current := hk.1
    rw [ih _ k hk.2]
    simp [RegCallbacks.register, hk1]

/-- After a run of register calls from a non-wrapping counter, the i-th
issued id is bound to the i-th registered closure. -/
theorem registerSeq_maps :
    ∀ (fs : List (String → String)) (st : RegCallbacks),
      st.current + fs.length ≤ U32MOD →
      ∀ i (hi : i < fs.length),
        (st.registerSeq fs).2.registered (st.current + i) =
          some (fs.get ⟨i, hi⟩) := by
  intro fs
  induction fs with
  | nil =>
    intro st h i hi
    exact absurd hi (by simp)
  | cons f fs ih =>
    intro st h i hi
    simp only [List.length_cons] at h hi
    have hcur : st.current < U32MOD := by omega
    cases i with
    | zero =>
      have hfroz : st.current ∉ ((st.register f).2.registerSeq fs).1 := by
        by_cases hc : st.current + 1 < U32MOD
        · have hids := registerSeq_ids fs (st.register f).2 (by
            simp [RegCallbacks.register, Nat.mod_eq_of_lt hc]
            omega)
          rw [hids]
          simp [RegCallbacks.register, Nat.mod_eq_of_lt hc, List.mem_range']
          omega
        · have hz : fs.length = 0 := by omega
          rw [List.length_eq_zero] at hz
          subst hz
          simp [RegCallbacks.registerSeq]
      simp only [RegCallbacks.registerSeq]
      rw [Nat.add_zero, registerSeq_frozen fs _ _ hfroz]
      simp [RegCallbacks.register]
    | succ j =>
      have hc : st.current + 1 < U32MOD := by omega
      have hcur2 : ((st.register f).2).current = st.current + 1 := by
        simp [RegCallbacks.register, Nat.mod_eq_of_lt hc]
      simp only [RegCallbacks.registerSeq]
      have hrec := ih (st.register f).2 (by rw [hcur2]; omega) j (by omega)
      rw [hcur2] at hrec
      have harith : st.current + 1 + j = st.current + (j + 1) := by omega
      rw [harith] at hrec
      simpa using hrec

/-- C6: registry ids form the strictly increasing sequence 0, 1, 2, ...:
from a fresh registry, a run of register calls that does not exhaust the
u32 counter issues exactly the ids 0 to n-1 in order (no id reused), and
afterwards each id is still bound to the closure it was issued for. -/
theorem register_ids_monotone (fs : List (String → String))
    (h : fs.length ≤ U32MOD) :
    (RegCallbacks.init.registerSeq fs).1 = List.range fs.length ∧
    (RegCallbacks.init.registerSeq fs).1.Nodup ∧
    (RegCallbacks.init.registerSeq fs).1.Pairwise (· < ·) ∧
    ∀ i (hi : i < fs.length),
      (RegCallbacks.init.registerSeq fs).2.registered i =
        some (fs.get ⟨i, hi⟩) := by
  have hz : (RegCallbacks.init : RegCallbacks).current = 0 := rfl
  have hids := registerSeq_ids fs RegCallbacks.init (by rw [hz]; omega)
  rw [hz, ← List.range_eq_range'] at hids
  refine ⟨hids, ?_, ?_, ?_⟩
  · rw [hids]
    exact List.nodup_range fs.length
  · rw [hids, List.range_eq_range']
    exact List.pairwise_lt_range' 0 fs.length
  · intro i hi
    have hmap := registerSeq_maps fs RegCallbacks.init (by rw [hz]; omega)
      i hi
    rw [hz] at hmap
    simpa using hmap

/-- C6 witness: registering two closures on a fresh registry issues the
ids 0 then 1, and id 1 keeps naming the second closure. -/
theorem register_ids_monotone_witness :
    ((RegCallbacks.init.registerSeq
      [fun _ => "a", fun s => s]).1 = List.range 2) ∧
    ((RegCallbacks.init.registerSeq
      [fun _ => "a", fun s => s]).2.registered 1 = some (fun s => s)) := by
  have h : ([fun _ => "a", fun s => s] :
      List (String → String)).length ≤ U32MOD := by
    norm_num [U32MOD]
  exact ⟨(register_ids_monotone [fun _ => "a", fun s => s] h).1,
    (register_ids_monotone [fun _ => "a", fun s => s] h).2.2.2 1
      (by norm_num)⟩

/-- C8: the executor's poll removes the task before driving it and is a
no-op on an absent id; after the single progress step the task is back
under the same id exactly when the step reported pending and is gone
when it reported ready (the error arm is uninhabited), with every other
id untouched; and spawn inserts the task under the fresh id taken from
the counter, bumps the counter, and is exactly a poll of the new id on
that pool. -/
theorem executor_poll_spawn (p : Pool) (id : Nat) :
    (p.futures id = none → execPoll p id = p) ∧
    (∀ f, p.futures id = some f →
      ((execPoll p id).futures id = some f.pollStep.2 ↔
        f.pollStep.1 = Except.ok Async.pending) ∧
      (f.pollStep.1 = Except.ok Async.ready →
        (execPoll p id).futures id = none) ∧
      (∀ k, k ≠ id → (execPoll p id).futures k = p.futures k)) ∧
    (∀ f : TaskM, (∀ k, (p.futures k).isSome = true → k < p.current) →
      p.futures p.current = none ∧
      execSpawn p f =
        execPoll
          (Pool.mk ((p.current + 1) % U32MOD)
            (fun k => if k = p.current then some f else p.futures k))
          p.current) := by
  refine ⟨?_, ?_, ?_⟩
  · intro h
    simp [execPoll, Pool.removeTask, h]
  · intro f h
    rcases hs : f.pollStep with ⟨res, f1⟩
    have hrm : p.removeTask id =
        (some f,
          Pool.mk p.current
            (fun k => if k = id then none else p.futures k)) := by
      simp [Pool.removeTask, h]
    rcases res with e | a
    · exact e.elim
    · cases a
      · refine ⟨?_, ?_, ?_⟩
        · simp [execPoll, hrm, hs, Pool.insertTask]
        · intro hcontra
          simp at hcontra
        · intro k hk
          simp [execPoll, hrm, hs, Pool.insertTask, hk]
      · refine ⟨?_, ?_, ?_⟩
        · simp [execPoll, hrm, hs]
        · intro _
          simp [execPoll, hrm, hs]
        · intro k hk
          simp [execPoll, hrm, hs, hk]
  · intro f hwf
    constructor
    · rcases hcur : p.futures p.current with _ | t
      · rfl
      · have := hwf p.current (by rw [hcur]; rfl)
        omega
    · rfl

/-- C8 witness: on the empty pool, polling the absent id 3 is a no-op; a
pool holding a pending-then-done task at id 0 reinserts its successor on
poll; spawning on the empty pool inserts at id 0 and polls it. -/
theorem executor_poll_spawn_witness :
    (execPoll (Pool.mk 0 (fun _ => none)) 3 = Pool.mk 0 (fun _ => none)) ∧
    ((execPoll
        (Pool.mk 1
          (fun k => if k = 0 then some (TaskM.yields TaskM.done) else none))
        0).futures 0 = some TaskM.done) ∧
    (execSpawn (Pool.mk 0 (fun _ => none)) TaskM.done =
      execPoll
        (Pool.mk (1 % U32MOD)
          (fun k => if k = 0 then some TaskM.done else none))
        0) := by
  refine ⟨?_, ?_, ?_⟩
  · exact (executor_poll_spawn (Pool.mk 0 (fun _ => none)) 3).1 rfl
  · exact ((executor_poll_spawn
      (Pool.mk 1
        (fun k => if k = 0 then some (TaskM.yields TaskM.done) else none))
      0).2.1 (TaskM.yields TaskM.done) rfl).1.mpr rfl
  · exact ((executor_poll_spawn (Pool.mk 0 (fun _ => none)) 0).2.2
      TaskM.done (by intro k hk; simp at hk)).2

end Stasis
